import Mathlib

/-!
Verification of the embedded-model / iterable-field codec core
(`django_mongodb/fields/embedded_model.py`).

The Python code is shallowly embedded as follows.

* Scalar values stored in documents are modelled by `Val` (Python `None`
  becomes `Val.null`).
* A Python `dict` is modelled by an insertion-ordered association list
  `Doc` with the usual dict operations: `dlookup` (`d[k]` / `k in d`),
  `dinsert` (`d[k] = v`, keeping the position of an existing key),
  `dremove`, and `dpop` (`d.pop(k, None)`, which removes the binding and
  is observable by the caller as mutation of the dict; mutation is
  modelled by explicitly returning the updated map).  Python dicts have
  unique keys; the operations are defined totally on association lists
  and coincide with the dict operations on unique-key maps.
* The external record framework's per-field codec contract (the spec's
  Field Descriptor) is the structure `FieldDescr`; model classes and
  model instances are `ModelClass` / `ModelInstance`, with the
  `_state.adding` flag carried on the instance.  Field side effects are
  modelled by returning updated values (state passing).
* Fallible Python code (raise) returns `Except Err _`.
-/

/-- A scalar value of the generic document universe.  `null` is Python's
`None`. -/
inductive Val where
  | null
  | int (n : Int)
  | str (s : String)
deriving DecidableEq

/-- Constructor rank, used to totalize the comparison `Val.le` across
constructors. -/
def Val.rank : Val → Nat
  | .null => 0
  | .int _ => 1
  | .str _ => 2

/-- Modelled from the spec: the comparison used by Python's `list.sort`
on the scalar value universe, totalized across constructors by rank
(Python raises on cross-type comparisons; the claims only compare values
of one type). -/
def Val.le : Val → Val → Bool
  | .int m, .int n => decide (m ≤ n)
  | .str s, .str t => decide (s ≤ t)
  | a, b => decide (a.rank ≤ b.rank)

/-- A Python dict: an insertion-ordered association list with unique
keys. -/
abbrev Doc := List (String × Val)

/-- Dict lookup: `d[k]` (`none` when the key is absent). -/
def dlookup : Doc → String → Option Val
  | [], _ => none
  | (k', v) :: d, k => if k' = k then some v else dlookup d k

/-- Dict key removal (the mutation performed by `d.pop(k, None)`). -/
def dremove : Doc → String → Doc
  | [], _ => []
  | (a, v) :: d, k => if a = k then dremove d k else (a, v) :: dremove d k

/-- Python `d.pop(k, None)`: returns the popped value (or `none`) and
the dict with the binding removed. -/
def dpop (d : Doc) (k : String) : Option Val × Doc :=
  (dlookup d k, dremove d k)

/-- Dict assignment `d[k] = v`: replaces the value in place when the key
exists (keeping its position), otherwise appends the new binding. -/
def dinsert : Doc → String → Val → Doc
  | [], k, v => [(k, v)]
  | (k', v') :: d, k, v => if k' = k then (k, v) :: d else (k', v') :: dinsert d k v

/-- The error taxonomy realized by the source: Python exception classes
raised by the code under `src/`.  The spec's abstract `ConfigurationError`
kind (invalid construction arguments, spec §7) is realized by the
`TypeError` raised in `ListField.__init__`. -/
inductive Err where
  | IntegrityError (msg : String)
  | TypeError (msg : String)
  | ValidationError (msg : String)
deriving DecidableEq

/-- Modelled from the spec: the external record framework's per-field
codec contract (`models.Field`, spec §6) — `pre_save` reads from the
owning instance's attribute map (Django's default returns
`getattr(instance, attname)`), `get_db_prep_save` converts a value for
storage, `to_python` converts a stored value back.  The contract is
modelled as pure value transforms. -/
structure FieldDescr where
  attname : String
  primary_key : Bool
  pre_save : Doc → Bool → Val
  get_db_prep_save : Val → Val
  to_python : Val → Val

/-- Modelled from the spec: a record class of the external framework —
its qualified name (`__module__` / `__name__`) and its declared fields
(`_meta.fields`). -/
structure ModelClass where
  modName : String
  clsName : String
  fields : List FieldDescr

/-- Modelled from the spec: a record instance — its class, its attribute
map (a field absent from the map is uninitialized), and the
`_state.adding` provenance flag (`true` = new, `false` = existing). -/
structure ModelInstance where
  cls : ModelClass
  attrs : Doc
  adding : Bool

/-- Modelled from the spec: `embedded_model(**attribute_values)` — the
framework constructor sets exactly the given attributes (fields absent
from the map are left uninitialized) on a fresh instance, which starts
in the `adding` (new) state. -/
def ModelClass.construct (m : ModelClass) (attrs : Doc) : ModelInstance :=
  { cls := m, attrs := attrs, adding := true }

/-- Modelled from the spec: Python `isinstance` against a model class,
approximated by class identity on the qualified name (subclassing plays
no role in the embedded codec core). -/
def sameClass (a b : ModelClass) : Bool :=
  a.modName == b.modName && a.clsName == b.clsName

/-- `RawField` (source lines 8-20): no validation or conversions; its
codec is the framework `Field` default — `pre_save` returns the stored
attribute value, both conversions are the identity.  The `attname` is
the one assigned by `set_attributes_from_name`. -/
def RawField (attname : String) : FieldDescr :=
  { attname := attname
    primary_key := false
    pre_save := fun attrs _ => (dlookup attrs attname).getD .null
    get_db_prep_save := fun v => v
    to_python := fun v => v }

/-- `_FakeModel` (source lines 23-31): a stand-in object holding one
value under the item field's attribute name, so the item field's
`pre_save` can be called on it. -/
def _FakeModel (field : FieldDescr) (value : Val) : Doc :=
  [(field.attname, value)]

/-- A materialized collection object: its identity (`objId`) and its
elements. -/
structure Collection where
  objId : Nat
  elems : List Val
deriving DecidableEq

/-- A non-callable iterable-field default is a declared value (`None`,
or a concrete collection literal such as `EMPTY_ITER`); a callable one
is a factory.  Object identity of materialized collections is modelled
by an allocation counter: a factory takes the next fresh object id and
returns the built collection together with the next counter. -/
inductive PyDefault where
  | pynone
  | pyvalue (l : List Val)
  | pycallable (f : Nat → Collection × Nat)

/-- `AbstractIterableField.__init__` default handling (source lines
49-53): when no default was declared it falls back to `None` when the
field is nullable, else to the empty collection; a non-`None`,
non-callable default is wrapped in `lambda: self._type(default)`, a
factory building a fresh collection (fresh object id) with the captured
elements on every access. -/
def AbstractIterableField.initDefault (declared : Option PyDefault) (null : Bool) :
    PyDefault :=
  let default := declared.getD (if null then .pynone else .pyvalue [])
  match default with
  | .pyvalue l => .pycallable (fun n => (⟨n, l⟩, n + 1))
  | d => d

/-- Modelled from the spec: the framework's default accessor
(`default()`, spec §4.2) — a callable default is invoked, `None` is the
absence-of-value sentinel, and a raw non-callable value is returned
as-is (the same object, with a fixed object id, on every access). -/
def AbstractIterableField.getDefault : PyDefault → Nat → Option Collection × Nat
  | .pynone, n => (none, n)
  | .pyvalue l, n => (some ⟨0, l⟩, n)
  | .pycallable f, n => (some (f n).1, (f n).2)

/-- `AbstractIterableField` (source lines 37-139), specialized to the
list container: its item codec and its resolved default. -/
structure AbstractIterableField where
  item_field : FieldDescr
  default : PyDefault

/-- `AbstractIterableField.pre_save` (source lines 107-118): passes each
item of the attribute value through the item field's `pre_save` using a
`_FakeModel`, preserving order (`_map` for the list container);
`None` passes through. -/
def AbstractIterableField.pre_save (f : AbstractIterableField)
    (value : Option (List Val)) (add : Bool) : Option (List Val) :=
  match value with
  | none => none
  | some l => some (l.map (fun item => f.item_field.pre_save (_FakeModel f.item_field item) add))

/-- `AbstractIterableField.get_db_prep_save` (source lines 120-124):
applies the item field's `get_db_prep_save` to every item; `None`
passes through. -/
def AbstractIterableField.get_db_prep_save (f : AbstractIterableField)
    (value : Option (List Val)) : Option (List Val) :=
  match value with
  | none => none
  | some l => some (l.map f.item_field.get_db_prep_save)

/-- Python `list.sort(key=...)`: a stable sort of the list by the key
function (Python uses a stable mergesort; any stable sort computes the
same result, here insertion sort). -/
def listSortByKey (key : Val → Val) (l : List Val) : List Val :=
  List.insertionSort (fun a b => Val.le (key a) (key b) = true) l

/-- `ListField` (source lines 142-171): the list specialization, with
the optional `ordering` sort key. -/
structure ListField extends AbstractIterableField where
  ordering : Option (Val → Val)

/-- The `ordering` argument passed to `ListField.__init__`: absent
(`None`), a callable, or some non-callable object. -/
inductive OrderingArg where
  | noneArg
  | callable (f : Val → Val)
  | notCallable (v : Val)

/-- `ListField.__init__` (source lines 154-160) composed with
`AbstractIterableField.__init__` (source lines 48-67): a non-callable,
non-`None` ordering raises `TypeError` before anything else happens;
otherwise the item field (defaulting to `RawField`) gets the synthetic
attribute name `"value"` and the declared default is resolved. -/
def ListField.init (ordering : OrderingArg) (item_field : Option FieldDescr)
    (declaredDefault : Option PyDefault) (null : Bool) : Except Err ListField :=
  match ordering with
  | .notCallable _ =>
      .error (.TypeError "ordering has to be a callable or None.")
  | .noneArg =>
      .ok { item_field :=
              (match item_field with
               | none => RawField "value"
               | some itf => { itf with attname := "value" })
            default := AbstractIterableField.initDefault declaredDefault null
            ordering := none }
  | .callable g =>
      .ok { item_field :=
              (match item_field with
               | none => RawField "value"
               | some itf => { itf with attname := "value" })
            default := AbstractIterableField.initDefault declaredDefault null
            ordering := some g }

/-- `ListField.pre_save` (source lines 165-171): reads the attribute
value; `None` passes through; a non-empty list is sorted in place by
the ordering key (when one is configured) before delegating to
`AbstractIterableField.pre_save`.  The in-place sort is modelled by
also returning the new attribute value (second component). -/
def ListField.pre_save (f : ListField) (value : Option (List Val)) (add : Bool) :
    Option (List Val) × Option (List Val) :=
  match value with
  | none => (none, none)
  | some l =>
      let l' := match f.ordering with
        | some key => if l.isEmpty then l else listSortByKey key l
        | none => l
      (AbstractIterableField.pre_save f.toAbstractIterableField (some l') add, some l')

/-- `EmbeddedModelField` (source lines 174-327): the optional statically
declared embedded model. -/
structure EmbeddedModelField where
  embedded_model : Option ModelClass

/-- The loop body of `EmbeddedModelField.get_db_prep_save` (source lines
303-312): compute the field's storage value via `pre_save` and
`get_db_prep_save`, skip an unset primary key (`continue` when the
field is the primary key and the value is `None`), otherwise store it
under the field's attribute name. -/
def embedStep (attrs : Doc) (add : Bool) (acc : Doc) (fld : FieldDescr) : Doc :=
  let value := fld.get_db_prep_save (fld.pre_save attrs add)
  if fld.primary_key && value == Val.null then acc
  else dinsert acc fld.attname value

/-- The `field_values` map built by `EmbeddedModelField.get_db_prep_save`
(source lines 303-312) before the untyped markers are added. -/
def embedFieldValues (fields : List FieldDescr) (attrs : Doc) (add : Bool) : Doc :=
  fields.foldl (embedStep attrs add) []

/-- The dict-comprehension body of `EmbeddedModelField.to_python`
(source lines 268-272): a field whose attribute name is present in the
value map contributes its `to_python`-converted value; absent fields
contribute nothing. -/
def buildStep (attribute_values : Doc) (acc : Doc) (fld : FieldDescr) : Doc :=
  match dlookup attribute_values fld.attname with
  | some v => dinsert acc fld.attname (fld.to_python v)
  | none => acc

/-- The rebuilt attribute map of `EmbeddedModelField.to_python` (source
lines 268-272). -/
def buildAttributeValues (fields : List FieldDescr) (attribute_values : Doc) : Doc :=
  fields.foldl (buildStep attribute_values) []

/-- Source lines 273-276: construct the embedded instance from the
rebuilt attribute map and mark it existing (`_state.adding = False`). -/
def rebuildInstance (embedded_model : ModelClass) (attribute_values : Doc) : ModelInstance :=
  let inst := embedded_model.construct (buildAttributeValues embedded_model.fields attribute_values)
  { inst with adding := false }

/-- `EmbeddedModelField.stored_model` (source lines 219-242): pop the
`_module` / `_model` markers from `column_values` (defaulting to `None`),
return the statically declared model when there is one, otherwise
resolve via the namespace lookup `getattr(import_module(module), model)`
— modelled by the external `resolve` parameter — when the module marker
is not `None`, and raise `IntegrityError` otherwise.  Mutation of the
caller's dict by the pops is modelled by returning the updated dict. -/
def EmbeddedModelField.stored_model (f : EmbeddedModelField)
    (resolve : Val → Val → Except Err ModelClass) (column_values : Doc) :
    Except Err ModelClass × Doc :=
  let p1 := dpop column_values "_module"
  let module := p1.1.getD .null
  let p2 := dpop p1.2 "_model"
  let model := p2.1.getD .null
  match f.embedded_model with
  | some m => (.ok m, p2.2)
  | none =>
      if module ≠ Val.null then (resolve module model, p2.2)
      else (.error (.IntegrityError
        "Untyped EmbeddedModelField trying to load data without serialized model class info."),
        p2.2)

/-- The values `EmbeddedModelField.to_python` (source lines 247-276) can
receive: a `(model, attribute_values)` tuple from the database layer, a
raw dict from a deserializer, or anything else (`None`, an
already-reconstituted instance, or some other value), which it returns
unchanged. -/
inductive PyValue where
  | none
  | tup (m : ModelClass) (attrs : Doc)
  | dict (d : Doc)
  | inst (i : ModelInstance)
  | raw (v : Val)

/-- `EmbeddedModelField.to_python` (source lines 247-276): a tuple is
used directly; a dict has its stored model resolved by `stored_model`
(whose pops mutate the caller's dict — the second component of the
result is the caller's value after the call); anything else is returned
unchanged.  On the reconstruction paths the instance is rebuilt from
the fields present in the value map and marked existing. -/
def EmbeddedModelField.to_python (f : EmbeddedModelField)
    (resolve : Val → Val → Except Err ModelClass) (value : PyValue) :
    Except Err PyValue × PyValue :=
  match value with
  | .tup embedded_model attribute_values =>
      (.ok (.inst (rebuildInstance embedded_model attribute_values)),
       .tup embedded_model attribute_values)
  | .dict d =>
      let res := f.stored_model resolve d
      match res.1 with
      | .ok embedded_model => (.ok (.inst (rebuildInstance embedded_model res.2)), .dict res.2)
      | .error e => (.error e, .dict res.2)
  | v => (.ok v, v)

/-- The `isinstance` test of `EmbeddedModelField.get_db_prep_save`
(source lines 295-296): against the declared model when typed, against
`models.Model` — satisfied by every model instance — when untyped. -/
def EmbeddedModelField.instanceCheck (f : EmbeddedModelField) (inst : ModelInstance) : Bool :=
  match f.embedded_model with
  | some m => sameClass inst.cls m
  | none => true

/-- `EmbeddedModelField.get_db_prep_save` (source lines 278-327): `None`
passes through; a value failing the `isinstance` test raises
`TypeError`; otherwise the field→value map is built (skipping an unset
primary key), the `_module` / `_model` markers are added for untyped
fields, and the instance is marked existing (`_state.adding = False`) —
the side effect on the caller's instance is modelled by returning the
updated instance alongside the map. -/
def EmbeddedModelField.get_db_prep_save (f : EmbeddedModelField)
    (embedded_instance : Option ModelInstance) :
    Except Err (Option (Doc × ModelInstance)) :=
  match embedded_instance with
  | none => .ok none
  | some inst =>
      if f.instanceCheck inst then
        let add := inst.adding
        let field_values := embedFieldValues inst.cls.fields inst.attrs add
        let field_values := match f.embedded_model with
          | none =>
              dinsert (dinsert field_values "_module" (.str inst.cls.modName))
                "_model" (.str inst.cls.clsName)
          | some _ => field_values
        .ok (some (field_values, { inst with adding := false }))
      else
        .error (.TypeError "Expected instance of the declared embedded model type.")

/-- A concrete primary-key field whose codec is the identity (an
id-style column). -/
def idField : FieldDescr :=
  { attname := "id"
    primary_key := true
    pre_save := fun attrs _ => (dlookup attrs "id").getD .null
    get_db_prep_save := fun v => v
    to_python := fun v => v }

/-- A concrete ordinary field with an identity codec. -/
def xField : FieldDescr :=
  { attname := "x"
    primary_key := false
    pre_save := fun attrs _ => (dlookup attrs "x").getD .null
    get_db_prep_save := fun v => v
    to_python := fun v => v }

/-- A concrete embedded model class with an unset-able primary key and
one data field. -/
def subModel : ModelClass :=
  { modName := "app.models", clsName := "Sub", fields := [idField, xField] }

/-- A concrete new sub-record of `subModel` whose primary key is unset. -/
def subRecord : ModelInstance :=
  { cls := subModel, attrs := [("id", Val.null), ("x", Val.int 7)], adding := true }

/-- A concrete namespace-lookup stand-in that resolves every name to
`subModel`. -/
def resolveSub : Val → Val → Except Err ModelClass :=
  fun _ _ => .ok subModel

/-- A concrete `ListField` with an identity ordering key and the default
`RawField` item codec. -/
def sortedListField : ListField :=
  { item_field := RawField "value", default := .pynone, ordering := some (fun v => v) }

/-! ### Dictionary lemmas -/

theorem dlookup_dinsert (d : Doc) (k k' : String) (v : Val) :
    dlookup (dinsert d k v) k' = if k = k' then some v else dlookup d k' := by
  induction d with
  | nil => simp [dinsert, dlookup]
  | cons p d ih =>
    obtain ⟨a, b⟩ := p
    simp only [dinsert]
    by_cases hak : a = k
    · subst hak
      by_cases hk : a = k'
      · subst hk; simp [dlookup]
      · simp [dlookup, hk]
    · simp only [if_neg hak, dlookup]
      by_cases hk2 : a = k'
      · subst hk2
        have hka : ¬ k = a := fun h => hak h.symm
        simp [hka]
      · simp [hk2, ih]

theorem dlookup_dremove_ne (d : Doc) (k k' : String) (h : k' ≠ k) :
    dlookup (dremove d k) k' = dlookup d k' := by
  induction d with
  | nil => rfl
  | cons p d ih =>
    obtain ⟨a, b⟩ := p
    by_cases hak : a = k
    · have hne : ¬ a = k' := fun he => h (he.symm.trans hak)
      have hkk : ¬ k = k' := fun he => h he.symm
      simp [dremove, dlookup, hak, hne, hkk, ih]
    · simp [dremove, dlookup, hak, ih]

theorem dlookup_dremove_self (d : Doc) (k : String) :
    dlookup (dremove d k) k = none := by
  induction d with
  | nil => rfl
  | cons p d ih =>
    obtain ⟨a, b⟩ := p
    by_cases hak : a = k
    · simp [dremove, hak, ih]
    · simp [dremove, dlookup, hak, ih]

/-! ### Order lemmas for the sort key comparison -/

theorem valLe_trans (a b c : Val) (hab : Val.le a b = true) (hbc : Val.le b c = true) :
    Val.le a c = true := by
  cases a <;> cases b <;> cases c <;>
    simp only [Val.le, Val.rank, decide_eq_true_eq] at * <;>
    first
      | omega
      | exact hab.trans hbc

theorem valLe_total (a b : Val) : Val.le a b = true ∨ Val.le b a = true := by
  cases a <;> cases b <;>
    simp only [Val.le, Val.rank, decide_eq_true_eq] <;>
    first
      | omega
      | exact Int.le_total _ _
      | exact le_total _ _

/-! ### Lookup lemmas for the encode fold (source lines 303-312) -/

theorem foldl_embed_lookup_notmem (fields : List FieldDescr) (attrs : Doc) (add : Bool)
    (k : String) (acc : Doc) (h : ∀ fld ∈ fields, fld.attname ≠ k) :
    dlookup (fields.foldl (embedStep attrs add) acc) k = dlookup acc k := by
  induction fields generalizing acc with
  | nil => rfl
  | cons g rest ih =>
    have hg : g.attname ≠ k := h g (List.mem_cons_self _ _)
    have hrest : ∀ fld ∈ rest, fld.attname ≠ k := fun fld hf => h fld (List.mem_cons_of_mem _ hf)
    simp only [List.foldl_cons]
    rw [ih _ hrest]
    simp only [embedStep]
    by_cases hc : (g.primary_key && (g.get_db_prep_save (g.pre_save attrs add) == Val.null)) = true
    · rw [if_pos hc]
    · rw [if_neg hc, dlookup_dinsert]
      simp [hg]

theorem foldl_embed_lookup_mem (fields : List FieldDescr) (attrs : Doc) (add : Bool)
    (fld : FieldDescr) (hmem : fld ∈ fields)
    (hnd : (fields.map FieldDescr.attname).Nodup) (acc : Doc)
    (hacc : dlookup acc fld.attname = none) :
    dlookup (fields.foldl (embedStep attrs add) acc) fld.attname =
      if fld.primary_key = true ∧ fld.get_db_prep_save (fld.pre_save attrs add) = Val.null
      then none else some (fld.get_db_prep_save (fld.pre_save attrs add)) := by
  induction fields generalizing acc with
  | nil => cases hmem
  | cons g rest ih =>
    rw [List.map_cons] at hnd
    have hhead := (List.nodup_cons.mp hnd).1
    have hnd' := (List.nodup_cons.mp hnd).2
    rcases List.mem_cons.mp hmem with rfl | hmem'
    · have hnotin : ∀ f2 ∈ rest, f2.attname ≠ fld.attname := by
        intro f2 hf2 he
        exact hhead (by rw [← he]; exact List.mem_map_of_mem _ hf2)
      simp only [List.foldl_cons]
      rw [foldl_embed_lookup_notmem rest attrs add fld.attname _ hnotin]
      simp only [embedStep]
      by_cases hc :
          (fld.primary_key && (fld.get_db_prep_save (fld.pre_save attrs add) == Val.null)) = true
      · have hc' : fld.primary_key = true ∧
            fld.get_db_prep_save (fld.pre_save attrs add) = Val.null := by
          simpa using hc
        rw [if_pos hc, if_pos hc']
        exact hacc
      · have hc' : ¬ (fld.primary_key = true ∧
            fld.get_db_prep_save (fld.pre_save attrs add) = Val.null) := by
          simpa using hc
        rw [if_neg hc, if_neg hc', dlookup_dinsert]
        simp
    · have hgne : g.attname ≠ fld.attname := by
        intro he
        exact hhead (by rw [he]; exact List.mem_map_of_mem _ hmem')
      have hacc' : dlookup (embedStep attrs add acc g) fld.attname = none := by
        simp only [embedStep]
        by_cases hc :
            (g.primary_key && (g.get_db_prep_save (g.pre_save attrs add) == Val.null)) = true
        · rw [if_pos hc]; exact hacc
        · rw [if_neg hc, dlookup_dinsert, if_neg hgne]; exact hacc
      simp only [List.foldl_cons]
      exact ih hmem' hnd' _ hacc'

/-! ### Lookup lemmas for the decode fold (source lines 268-272) -/

theorem foldl_build_lookup_notmem (fields : List FieldDescr) (av : Doc) (k : String)
    (acc : Doc) (h : ∀ fld ∈ fields, fld.attname ≠ k) :
    dlookup (fields.foldl (buildStep av) acc) k = dlookup acc k := by
  induction fields generalizing acc with
  | nil => rfl
  | cons g rest ih =>
    have hg : g.attname ≠ k := h g (List.mem_cons_self _ _)
    have hrest : ∀ fld ∈ rest, fld.attname ≠ k := fun fld hf => h fld (List.mem_cons_of_mem _ hf)
    simp only [List.foldl_cons]
    rw [ih _ hrest]
    simp only [buildStep]
    cases hv : dlookup av g.attname with
    | none => rfl
    | some v =>
      rw [dlookup_dinsert, if_neg hg]

theorem foldl_build_lookup_none (fields : List FieldDescr) (av : Doc) (k : String)
    (hk : dlookup av k = none) (acc : Doc) (hacc : dlookup acc k = none) :
    dlookup (fields.foldl (buildStep av) acc) k = none := by
  induction fields generalizing acc with
  | nil => exact hacc
  | cons g rest ih =>
    simp only [List.foldl_cons]
    apply ih
    simp only [buildStep]
    cases hv : dlookup av g.attname with
    | none => exact hacc
    | some v =>
      have hne : ¬ g.attname = k := fun he => by rw [he, hk] at hv; cases hv
      rw [dlookup_dinsert, if_neg hne]
      exact hacc

theorem foldl_build_lookup_mem (fields : List FieldDescr) (av : Doc)
    (fld : FieldDescr) (hmem : fld ∈ fields)
    (hnd : (fields.map FieldDescr.attname).Nodup) (acc : Doc)
    (hacc : dlookup acc fld.attname = none) :
    dlookup (fields.foldl (buildStep av) acc) fld.attname =
      (dlookup av fld.attname).map fld.to_python := by
  induction fields generalizing acc with
  | nil => cases hmem
  | cons g rest ih =>
    rw [List.map_cons] at hnd
    have hhead := (List.nodup_cons.mp hnd).1
    have hnd' := (List.nodup_cons.mp hnd).2
    rcases List.mem_cons.mp hmem with rfl | hmem'
    · have hnotin : ∀ f2 ∈ rest, f2.attname ≠ fld.attname := by
        intro f2 hf2 he
        exact hhead (by rw [← he]; exact List.mem_map_of_mem _ hf2)
      simp only [List.foldl_cons]
      rw [foldl_build_lookup_notmem rest av fld.attname _ hnotin]
      simp only [buildStep]
      cases hv : dlookup av fld.attname with
      | none => simp [hacc]
      | some v => rw [dlookup_dinsert]; simp
    · have hgne : g.attname ≠ fld.attname := by
        intro he
        exact hhead (by rw [he]; exact List.mem_map_of_mem _ hmem')
      have hacc' : dlookup (buildStep av acc g) fld.attname = none := by
        simp only [buildStep]
        cases hv : dlookup av g.attname with
        | none => exact hacc
        | some v => rw [dlookup_dinsert, if_neg hgne]; exact hacc
      simp only [List.foldl_cons]
      exact ih hmem' hnd' _ hacc'

/-- The second component of `stored_model` — the caller's dict after the
two pops — is always the input with the `_module` and `_model` bindings
removed, on every branch. -/
theorem stored_model_snd (f : EmbeddedModelField)
    (resolve : Val → Val → Except Err ModelClass) (d : Doc) :
    (EmbeddedModelField.stored_model f resolve d).2
      = dremove (dremove d "_module") "_model" := by
  obtain ⟨em⟩ := f
  cases em with
  | some m => rfl
  | none =>
      simp only [EmbeddedModelField.stored_model, dpop]
      split <;> rfl

/-- C10: decode applied to any input that is neither a
`(type, field-values)` tuple nor a field→value map — `None`, an
already-reconstituted record instance, or any other raw value — returns
the input unchanged and does not fail; only tuples and maps trigger
reconstitution. -/
theorem c10_to_python_passthrough (f : EmbeddedModelField)
    (resolve : Val → Val → Except Err ModelClass) (i : ModelInstance) (w : Val) :
    EmbeddedModelField.to_python f resolve .none = (.ok .none, .none)
  ∧ EmbeddedModelField.to_python f resolve (.inst i) = (.ok (.inst i), .inst i)
  ∧ EmbeddedModelField.to_python f resolve (.raw w) = (.ok (.raw w), .raw w) :=
  ⟨rfl, rfl, rfl⟩

/-- C9: constructing the ordered list field with an ordering argument
that is neither null nor callable fails immediately at construction —
with the error the spec's taxonomy calls the ConfigurationError kind,
realized as `TypeError` in the source — before any field value exists to
encode or write; construction with a null or a callable ordering
succeeds and records that ordering. -/
theorem c9_ordering_validation (v : Val) (g : Val → Val)
    (itf : Option FieldDescr) (dd : Option PyDefault) (nul : Bool) :
    ListField.init (.notCallable v) itf dd nul
      = .error (.TypeError "ordering has to be a callable or None.")
  ∧ (∃ lf, ListField.init .noneArg itf dd nul = .ok lf ∧ lf.ordering = none)
  ∧ (∃ lf, ListField.init (.callable g) itf dd nul = .ok lf ∧ lf.ordering = some g) :=
  ⟨rfl, ⟨_, rfl, rfl⟩, ⟨_, rfl, rfl⟩⟩

/-- C6: the iterable field's default — with no declared default it is the
absence-of-value sentinel when the field allows it (nullable) and a
fresh empty collection otherwise; a declared non-callable default is
re-materialized into a new collection object on every access: two
consecutive accesses yield collections with the declared elements but
distinct object identities, so two records never share one underlying
collection object. -/
theorem c6_default_isolation (n : Nat) (l : List Val) (nul : Bool) :
    AbstractIterableField.getDefault (AbstractIterableField.initDefault none true) n
      = (none, n)
  ∧ AbstractIterableField.getDefault (AbstractIterableField.initDefault none false) n
      = (some ⟨n, []⟩, n + 1)
  ∧ (AbstractIterableField.getDefault
        (AbstractIterableField.initDefault (some (.pyvalue l)) nul) n).1
      = some ⟨n, l⟩
  ∧ (AbstractIterableField.getDefault
        (AbstractIterableField.initDefault (some (.pyvalue l)) nul)
        ((AbstractIterableField.getDefault
          (AbstractIterableField.initDefault (some (.pyvalue l)) nul) n).2)).1
      = some ⟨n + 1, l⟩
  ∧ (⟨n, l⟩ : Collection).objId ≠ (⟨n + 1, l⟩ : Collection).objId := by
  refine ⟨rfl, rfl, rfl, rfl, ?_⟩
  simp only []
  omega

/-- C2: through a field with a statically declared record type,
`stored_model` returns the declared type unconditionally — regardless of
any `_module`/`_model` provenance markers in the map — while still
removing both marker keys from the map, and the decoded instance is of
the declared type and never carries the marker keys as attributes. -/
theorem c2_static_type_precedence (M : ModelClass)
    (resolve : Val → Val → Except Err ModelClass) (d : Doc) :
    (EmbeddedModelField.stored_model ⟨some M⟩ resolve d).1 = .ok M
  ∧ (EmbeddedModelField.stored_model ⟨some M⟩ resolve d).2
      = dremove (dremove d "_module") "_model"
  ∧ ∃ i : ModelInstance,
      (EmbeddedModelField.to_python ⟨some M⟩ resolve (.dict d)).1 = .ok (.inst i)
    ∧ i.cls = M
    ∧ dlookup i.attrs "_module" = none
    ∧ dlookup i.attrs "_model" = none := by
  refine ⟨rfl, rfl,
    ⟨rebuildInstance M (dremove (dremove d "_module") "_model"), rfl, rfl, ?_, ?_⟩⟩
  · show dlookup (M.fields.foldl
        (buildStep (dremove (dremove d "_module") "_model")) []) "_module" = none
    apply foldl_build_lookup_none
    · rw [dlookup_dremove_ne _ _ _ (by decide)]
      exact dlookup_dremove_self d "_module"
    · rfl
  · show dlookup (M.fields.foldl
        (buildStep (dremove (dremove d "_module") "_model")) []) "_model" = none
    apply foldl_build_lookup_none
    · exact dlookup_dremove_self _ "_model"
    · rfl

/-- C3 counterexample: a document carrying only the type-name marker
(`_model` present and resolvable, `_module` absent) makes the untyped
`stored_model` fail with `IntegrityError` — the claim's "whenever a
type-name marker is present the type is resolved via namespace lookup"
is false: the code branches on the namespace (module) marker instead. -/
theorem c3_counterexample :
    (EmbeddedModelField.stored_model ⟨none⟩ resolveSub [("_model", Val.str "X")]).1
      = .error (.IntegrityError
        "Untyped EmbeddedModelField trying to load data without serialized model class info.")
  ∧ resolveSub (Val.str "m") (Val.str "X") = .ok subModel
  ∧ (EmbeddedModelField.stored_model ⟨none⟩ resolveSub [("_model", Val.str "X")]).1
      ≠ .ok subModel := by
  refine ⟨rfl, rfl, fun h => ?_⟩
  exact Except.noConfusion h

/-- C3 (amended): for an embedded field with no statically declared
type, resolving the stored type pops both provenance markers from the
document map; the branch is on the namespace (module) marker — whenever
the module marker is present with a non-null value the type is resolved
via the namespace lookup applied to the module and type-name values
(even when the type-name marker is absent, in which case the lookup
receives a null name), and whenever the module marker is absent or null
the operation fails with an `IntegrityError` kind rather than returning
a type or null, even if the type-name marker is present. -/
theorem c3_amended_untyped_resolution
    (resolve : Val → Val → Except Err ModelClass) (d : Doc) :
    EmbeddedModelField.stored_model ⟨none⟩ resolve d
      = (if (dlookup d "_module").getD Val.null ≠ Val.null
         then resolve ((dlookup d "_module").getD Val.null)
                ((dlookup d "_model").getD Val.null)
         else .error (.IntegrityError
           "Untyped EmbeddedModelField trying to load data without serialized model class info."),
         dremove (dremove d "_module") "_model") := by
  have h := dlookup_dremove_ne d "_module" "_model" (by decide)
  by_cases hc : (dlookup d "_module").getD Val.null ≠ Val.null
  · simp only [EmbeddedModelField.stored_model, dpop, if_pos hc, h]
  · simp only [EmbeddedModelField.stored_model, dpop, if_neg hc]

/-- C8 counterexample: decoding a raw map through a statically typed
field leaves the caller's map with the `_module` key removed — the map
after the call differs from the map passed in, so resolution is not
performed on a copy. -/
theorem c8_counterexample :
    (EmbeddedModelField.to_python ⟨some subModel⟩ resolveSub
        (.dict [("_module", Val.str "app.models"), ("x", Val.int 1)])).2
      = .dict [("x", Val.int 1)]
  ∧ PyValue.dict [("x", Val.int 1)]
      ≠ PyValue.dict [("_module", Val.str "app.models"), ("x", Val.int 1)] := by
  refine ⟨rfl, fun h => ?_⟩
  injection h with h2
  exact absurd h2 (by decide)

/-- C8 (amended): decode performs stored-type resolution directly on the
caller-owned map: the two provenance marker keys are removed from the
caller's map as a side effect of the call, and every other entry is left
unchanged — after decoding a map input, the caller's value is exactly
the input with the `_module` and `_model` bindings removed. -/
theorem c8_amended_caller_map_mutated (f : EmbeddedModelField)
    (resolve : Val → Val → Except Err ModelClass) (d : Doc) :
    (EmbeddedModelField.to_python f resolve (.dict d)).2
      = .dict (dremove (dremove d "_module") "_model") := by
  have hsnd := stored_model_snd f resolve d
  show (match (f.stored_model resolve d).1 with
        | Except.ok embedded_model =>
            (Except.ok (PyValue.inst
               (rebuildInstance embedded_model (f.stored_model resolve d).2)),
             PyValue.dict (f.stored_model resolve d).2)
        | Except.error e => (Except.error e, PyValue.dict (f.stored_model resolve d).2)).2
      = PyValue.dict (dremove (dremove d "_module") "_model")
  rcases h1 : (f.stored_model resolve d).1 with e | em <;> simp [h1, hsnd]

/-- C7: a successful encode marks the caller's instance existing (the
instance handed back carries a cleared `adding` flag); decode of a
`(type, values)` tuple or of a raw map always yields an instance marked
existing; and no codec operation sets the flag back to new — an
existing instance passed through decode is returned unchanged, still
existing. -/
theorem c7_provenance_state_machine (f : EmbeddedModelField)
    (resolve : Val → Val → Except Err ModelClass) (m : ModelClass) (av d : Doc)
    (r : ModelInstance) :
    (∀ doc i2, EmbeddedModelField.get_db_prep_save f (some r) = .ok (some (doc, i2)) →
        i2.adding = false)
  ∧ (∀ i, (EmbeddedModelField.to_python f resolve (.tup m av)).1 = .ok (.inst i) →
        i.adding = false)
  ∧ (∀ i, (EmbeddedModelField.to_python f resolve (.dict d)).1 = .ok (.inst i) →
        i.adding = false)
  ∧ (r.adding = false →
        EmbeddedModelField.to_python f resolve (.inst r) = (.ok (.inst r), .inst r)) := by
  refine ⟨?_, ?_, ?_, fun _ => rfl⟩
  · intro doc i2 h
    by_cases hc : f.instanceCheck r = true
    · simp [EmbeddedModelField.get_db_prep_save, hc] at h
      obtain ⟨-, h2⟩ := h
      rw [← h2]
    · simp [EmbeddedModelField.get_db_prep_save, hc] at h
  · intro i h
    have hred : (EmbeddedModelField.to_python f resolve (.tup m av)).1
        = .ok (.inst (rebuildInstance m av)) := rfl
    rw [hred] at h
    simp only [Except.ok.injEq, PyValue.inst.injEq] at h
    rw [← h]
    rfl
  · intro i h
    have key : EmbeddedModelField.to_python f resolve (.dict d)
        = (match (f.stored_model resolve d).1 with
           | Except.ok em =>
               (Except.ok (PyValue.inst (rebuildInstance em (f.stored_model resolve d).2)),
                PyValue.dict (f.stored_model resolve d).2)
           | Except.error e2 =>
               (Except.error e2, PyValue.dict (f.stored_model resolve d).2)) := rfl
    rcases h1 : (f.stored_model resolve d).1 with e | em
    · rw [key, h1] at h
      simp at h
    · rw [key, h1] at h
      simp only [Except.ok.injEq, PyValue.inst.injEq] at h
      rw [← h]
      rfl

/-- Witness for C7: encoding the concrete new sub-record `subRecord`
through a typed embedded field returns it marked existing. -/
theorem c7_witness :
    ({ cls := subModel, attrs := [("id", Val.null), ("x", Val.int 7)], adding := false }
      : ModelInstance).adding = false :=
  (c7_provenance_state_machine ⟨some subModel⟩ resolveSub subModel [] [] subRecord).1
    [("x", Val.int 7)]
    { cls := subModel, attrs := [("id", Val.null), ("x", Val.int 7)], adding := false }
    rfl

/-- C4: encoding an embedded instance omits a field that is the primary
key and whose computed storage value is null entirely from the returned
storage map (no key bound to null), while every other field of the
instance's type appears in the map under its attribute name with its
computed storage value. -/
theorem c4_unset_pk_omitted (f : EmbeddedModelField) (r : ModelInstance)
    (hnd : (r.cls.fields.map FieldDescr.attname).Nodup)
    (hmark : ∀ fld ∈ r.cls.fields, fld.attname ≠ "_module" ∧ fld.attname ≠ "_model")
    (hck : EmbeddedModelField.instanceCheck f r = true) :
    ∃ doc, EmbeddedModelField.get_db_prep_save f (some r)
        = .ok (some (doc, { r with adding := false }))
      ∧ ∀ fld ∈ r.cls.fields,
          dlookup doc fld.attname
            = if fld.primary_key = true ∧
                  fld.get_db_prep_save (fld.pre_save r.attrs r.adding) = Val.null
              then none
              else some (fld.get_db_prep_save (fld.pre_save r.attrs r.adding)) := by
  cases hem : f.embedded_model with
  | some M =>
      refine ⟨embedFieldValues r.cls.fields r.attrs r.adding, ?_, ?_⟩
      · simp [EmbeddedModelField.get_db_prep_save, hck, hem]
      · intro fld hf
        exact foldl_embed_lookup_mem r.cls.fields r.attrs r.adding fld hf hnd [] rfl
  | none =>
      refine ⟨dinsert (dinsert (embedFieldValues r.cls.fields r.attrs r.adding)
          "_module" (.str r.cls.modName)) "_model" (.str r.cls.clsName), ?_, ?_⟩
      · simp [EmbeddedModelField.get_db_prep_save, hck, hem]
      · intro fld hf
        obtain ⟨h1, h2⟩ := hmark fld hf
        rw [dlookup_dinsert, if_neg (fun he => h2 he.symm),
          dlookup_dinsert, if_neg (fun he => h1 he.symm)]
        exact foldl_embed_lookup_mem r.cls.fields r.attrs r.adding fld hf hnd [] rfl

/-- Witness for C4: encoding the concrete sub-record with an unset
primary key — the `id` key is absent from the storage map, the `x` key
holds its storage value. -/
theorem c4_witness :
    ∃ doc, EmbeddedModelField.get_db_prep_save ⟨some subModel⟩ (some subRecord)
        = .ok (some (doc, { subRecord with adding := false }))
      ∧ ∀ fld ∈ subRecord.cls.fields,
          dlookup doc fld.attname
            = if fld.primary_key = true ∧
                  fld.get_db_prep_save (fld.pre_save subRecord.attrs subRecord.adding) = Val.null
              then none
              else some (fld.get_db_prep_save (fld.pre_save subRecord.attrs subRecord.adding)) :=
  c4_unset_pk_omitted ⟨some subModel⟩ subRecord (by decide)
    (by intro fld hf; fin_cases hf <;> exact ⟨by decide, by decide⟩) rfl

/-- C1: round-trip for a statically typed embedded field — encoding a
new sub-record `r` and decoding the resulting map rebuilds an instance
of the declared type whose attribute value equals `r`'s for every field
of the type, except that a primary-key field whose storage value is
null is omitted from the encoded map and therefore left uninitialized
(no attribute binding) on the decoded instance.  The hypotheses state
that the model's field names are distinct and distinct from the marker
keys, and that each field's scalar codec round-trips on `r`'s value. -/
theorem c1_roundtrip (M : ModelClass)
    (resolve : Val → Val → Except Err ModelClass) (r : ModelInstance)
    (hcls : r.cls = M) (hadd : r.adding = true)
    (hnd : (M.fields.map FieldDescr.attname).Nodup)
    (hmark : ∀ fld ∈ M.fields, fld.attname ≠ "_module" ∧ fld.attname ≠ "_model")
    (hrt : ∀ fld ∈ M.fields,
        dlookup r.attrs fld.attname
          = some (fld.to_python (fld.get_db_prep_save (fld.pre_save r.attrs true)))) :
    ∃ doc i,
      EmbeddedModelField.get_db_prep_save ⟨some M⟩ (some r)
        = .ok (some (doc, { r with adding := false }))
    ∧ (EmbeddedModelField.to_python ⟨some M⟩ resolve (.dict doc)).1 = .ok (.inst i)
    ∧ i.cls = M ∧ i.adding = false
    ∧ ∀ fld ∈ M.fields,
        dlookup i.attrs fld.attname
          = if fld.primary_key = true ∧
                fld.get_db_prep_save (fld.pre_save r.attrs true) = Val.null
            then none
            else dlookup r.attrs fld.attname := by
  have hck : EmbeddedModelField.instanceCheck ⟨some M⟩ r = true := by
    simp [EmbeddedModelField.instanceCheck, sameClass, hcls]
  refine ⟨embedFieldValues M.fields r.attrs true,
    rebuildInstance M
      (dremove (dremove (embedFieldValues M.fields r.attrs true) "_module") "_model"),
    ?_, rfl, rfl, rfl, ?_⟩
  · simp only [EmbeddedModelField.get_db_prep_save, hck, if_true]
    rw [hcls, hadd]
  · intro fld hf
    obtain ⟨h1, h2⟩ := hmark fld hf
    show dlookup (M.fields.foldl
        (buildStep (dremove (dremove (M.fields.foldl (embedStep r.attrs true) [])
          "_module") "_model")) []) fld.attname
      = if fld.primary_key = true ∧
            fld.get_db_prep_save (fld.pre_save r.attrs true) = Val.null
        then none
        else dlookup r.attrs fld.attname
    rw [foldl_build_lookup_mem M.fields _ fld hf hnd [] rfl]
    rw [dlookup_dremove_ne _ _ _ h2, dlookup_dremove_ne _ _ _ h1]
    rw [foldl_embed_lookup_mem M.fields r.attrs true fld hf hnd [] rfl]
    by_cases hcond : fld.primary_key = true ∧
        fld.get_db_prep_save (fld.pre_save r.attrs true) = Val.null
    · rw [if_pos hcond, if_pos hcond]
      rfl
    · rw [if_neg hcond, if_neg hcond, hrt fld hf]
      rfl

/-- Witness for C1: the round-trip at the concrete sub-record with an
unset primary key and one data field. -/
theorem c1_witness :
    subRecord.adding = true
  ∧ ∃ doc i,
      EmbeddedModelField.get_db_prep_save ⟨some subModel⟩ (some subRecord)
        = .ok (some (doc, { subRecord with adding := false }))
    ∧ (EmbeddedModelField.to_python ⟨some subModel⟩ resolveSub (.dict doc)).1
        = .ok (.inst i)
    ∧ i.cls = subModel ∧ i.adding = false
    ∧ ∀ fld ∈ subModel.fields,
        dlookup i.attrs fld.attname
          = if fld.primary_key = true ∧
                fld.get_db_prep_save (fld.pre_save subRecord.attrs true) = Val.null
            then none
            else dlookup subRecord.attrs fld.attname :=
  ⟨rfl, c1_roundtrip subModel resolveSub subRecord rfl rfl (by decide)
    (by intro fld hf; fin_cases hf <;> exact ⟨by decide, by decide⟩)
    (by intro fld hf; fin_cases hf <;> rfl)⟩

/-- C5: with an ordering key configured and a non-empty native list, the
list field's write path first sorts the caller's list in place by that
key — the attribute value after the call is the sorted list, a
permutation of the input that is pairwise ordered by the key — and then
emits the item codec's values in the sorted order: the pre-save
transform per item, followed by the storage-value conversion. -/
theorem c5_ordering_sorts_before_encode (f : ListField) (key : Val → Val) (l : List Val)
    (add : Bool) (hord : f.ordering = some key) (hne : l ≠ []) :
    ListField.pre_save f (some l) add
      = (some ((listSortByKey key l).map
            (fun item => f.item_field.pre_save (_FakeModel f.item_field item) add)),
         some (listSortByKey key l))
  ∧ AbstractIterableField.get_db_prep_save f.toAbstractIterableField
        (ListField.pre_save f (some l) add).1
      = some ((listSortByKey key l).map
          (fun item => f.item_field.get_db_prep_save
            (f.item_field.pre_save (_FakeModel f.item_field item) add)))
  ∧ List.Perm (listSortByKey key l) l
  ∧ List.Pairwise (fun a b => Val.le (key a) (key b) = true) (listSortByKey key l) := by
  have hempty : l.isEmpty = false := by
    cases l with
    | nil => exact absurd rfl hne
    | cons a as => rfl
  have hps : ListField.pre_save f (some l) add
      = (some ((listSortByKey key l).map
            (fun item => f.item_field.pre_save (_FakeModel f.item_field item) add)),
         some (listSortByKey key l)) := by
    simp [ListField.pre_save, hord, hempty, AbstractIterableField.pre_save]
  refine ⟨hps, ?_, List.perm_insertionSort _ l, ?_⟩
  · rw [hps]
    simp [AbstractIterableField.get_db_prep_save, List.map_map, Function.comp]
  · letI : IsTotal Val (fun a b => Val.le (key a) (key b) = true) :=
      ⟨fun a b => valLe_total (key a) (key b)⟩
    letI : IsTrans Val (fun a b => Val.le (key a) (key b) = true) :=
      ⟨fun a b c hab hbc => valLe_trans (key a) (key b) (key c) hab hbc⟩
    exact List.sorted_insertionSort _ l

/-- Witness for C5: the identity ordering key on the native list
`[3, 1, 2]` — storage order is `[1, 2, 3]` and the in-memory attribute
is left sorted. -/
theorem c5_witness :
    sortedListField.ordering = some (fun v => v)
  ∧ ListField.pre_save sortedListField (some [Val.int 3, Val.int 1, Val.int 2]) true
      = (some [Val.int 1, Val.int 2, Val.int 3], some [Val.int 1, Val.int 2, Val.int 3]) := by
  refine ⟨rfl, ?_⟩
  have h := c5_ordering_sorts_before_encode sortedListField (fun v => v)
    [Val.int 3, Val.int 1, Val.int 2] true rfl (by decide)
  rw [h.1]
  decide
